import Mathlib

/-!
Verification of the telemetry ingestion and persistence pipeline of the
repository `Benas2003/komkomunikacijos-ld` (Go).

The Go code is shallowly embedded:
* Go strings are `List Char` (`GoStr`); the helpers `trimSpace`,
  `splitOnChar`, `trimPre` model `strings.TrimSpace`, `strings.Split`
  (single-character separator) and `strings.TrimPrefix`.
* `float64` values are modelled as exact rationals (`ℚ`).  `parseFloat?`
  models the decimal fragment of `strconv.ParseFloat` (optional sign,
  digits with an optional fractional part, optional exponent, no trailing
  input); the special forms `Inf`/`NaN`, hexadecimal mantissas, digit
  underscores and the over/underflow range errors of the binary format are
  outside the model.  On every input appearing in the claims the modelled
  acceptance and value agree with Go.
* `int` values are `ℤ`; `parseInt?` models `strconv.Atoi` including its
  64-bit range error.
* Fallible Go functions returning `(T, error)` become `Except String T`
  (callers of `ParsePacket` discard the partially-filled record whenever
  the error is non-nil, so only the error case is kept).
-/

/-- Go strings, as lists of characters. -/
abbrev GoStr := List Char

/-- `unicode.IsSpace` on the whitespace characters relevant to
`strings.TrimSpace` (ASCII space classes plus NEL and NBSP). -/
def goIsSpace (c : Char) : Bool :=
  c = ' ' || c = '\t' || c = '\n' || c = '\x0b' || c = '\x0c' || c = '\r' ||
    c = '\u0085' || c = ' '

/-- `strings.TrimSpace`: drop leading and trailing whitespace. -/
def trimSpace (s : GoStr) : GoStr :=
  ((s.dropWhile goIsSpace).reverse.dropWhile goIsSpace).reverse

/-- `strings.Split s sep` for a one-character separator `sep`:
`splitOnChar sep s` always returns at least one (possibly empty) group. -/
def splitOnChar (sep : Char) : GoStr → List GoStr
  | [] => [[]]
  | c :: cs =>
    let r := splitOnChar sep cs
    if c = sep then [] :: r
    else
      match r with
      | [] => [[c]]
      | g :: gs => (c :: g) :: gs

/-- `strings.TrimPrefix pre s`: `s` without `pre` when `pre` leads `s`,
otherwise `s` unchanged. -/
def trimPre (pre s : GoStr) : GoStr :=
  if pre.isPrefixOf s then s.drop pre.length else s

/-- Numeric value of a decimal digit character. -/
def digitVal (c : Char) : ℕ := c.toNat - 48

/-- Value of a list of decimal digit characters, most significant first. -/
def digitsToNat (ds : GoStr) : ℕ := ds.foldl (fun a c => 10 * a + digitVal c) 0

/-- `strconv.Atoi`: optional sign, a nonempty run of decimal digits and
nothing else; values outside the 64-bit `int` range are a range error. -/
def parseInt? (s : GoStr) : Option ℤ :=
  if s = [] then none
  else
    let neg : Bool := s.headD ' ' = '-'
    let ds := if s.headD ' ' = '+' ∨ s.headD ' ' = '-' then s.tail else s
    if ds = [] then none
    else if ds.all Char.isDigit then
      let v : ℤ := (if neg then -1 else 1) * (digitsToNat ds : ℤ)
      if v < -(2 ^ 63) ∨ 2 ^ 63 ≤ v then none else some v
    else none

/-- The decimal fragment of `strconv.ParseFloat` (see the header comment):
optional sign, a mantissa holding at least one digit (`12`, `12.`, `.5`,
`12.5`), an optional `e`/`E` exponent with an optionally signed nonempty
digit run, and no trailing input; the value is exact. -/
def parseFloat? (s : GoStr) : Option ℚ :=
  if s = [] then none
  else
    let neg : Bool := s.headD ' ' = '-'
    let r1 := if s.headD ' ' = '+' ∨ s.headD ' ' = '-' then s.tail else s
    let ip := r1.takeWhile Char.isDigit
    let r2 := r1.dropWhile Char.isDigit
    let hasDot : Bool := r2.headD ' ' = '.'
    let fp := if hasDot then r2.tail.takeWhile Char.isDigit else []
    let r3 := if hasDot then r2.tail.dropWhile Char.isDigit else r2
    if ip = [] ∧ fp = [] then none
    else
      let m : ℚ := (digitsToNat ip : ℚ) + (digitsToNat fp : ℚ) / (10 : ℚ) ^ fp.length
      let sign : ℚ := if neg then -1 else 1
      if r3 = [] then some (sign * m)
      else if r3.headD ' ' = 'e' ∨ r3.headD ' ' = 'E' then
        let r4 := r3.tail
        let eneg : Bool := r4.headD ' ' = '-'
        let ds := if r4.headD ' ' = '+' ∨ r4.headD ' ' = '-' then r4.tail else r4
        if ds ≠ [] ∧ ds.all Char.isDigit then
          some (sign * m * (if eneg then ((10 : ℚ) ^ digitsToNat ds)⁻¹ else (10 : ℚ) ^ digitsToNat ds))
        else none
      else none

/-- `Packet` of `parser.go`: one decoded telemetry record.  `Acceleration`
is the `[3]float64` array as a triple `(x, y, z)`. -/
structure Packet where
  Time : GoStr
  Latitude : ℚ
  Longitude : ℚ
  Satellites : ℤ
  Acceleration : ℚ × ℚ × ℚ
  deriving DecidableEq, Repr

/-- The Go zero value `var p Packet`. -/
def Packet.zero : Packet := ⟨[], 0, 0, 0, (0, 0, 0)⟩

/-- The field tag `"Time-"`. -/
def timeKey : GoStr := "Time-".data
/-- The field tag `"Latitude-"`. -/
def latKey : GoStr := "Latitude-".data
/-- The field tag `"Longitude-"`. -/
def lonKey : GoStr := "Longitude-".data
/-- The field tag `"Satellites-"`. -/
def satKey : GoStr := "Satellites-".data
/-- The field tag `"Acceleration"`. -/
def accKey : GoStr := "Acceleration".data

/-- One arm of the `switch` in `ParsePacket` (`parser.go` lines 30-77):
dispatch one semicolon-delimited field into the record being built.  A
field matching none of the recognized tags is a no-op. -/
def parseField (p : Packet) (field : GoStr) : Except String Packet :=
  if timeKey.isPrefixOf field then
    .ok { p with Time := trimPre timeKey field }
  else if latKey.isPrefixOf field then
    match parseFloat? (trimPre latKey field) with
    | some f => .ok { p with Latitude := f }
    | none => .error "invalid float"
  else if lonKey.isPrefixOf field then
    match parseFloat? (trimPre lonKey field) with
    | some f => .ok { p with Longitude := f }
    | none => .error "invalid float"
  else if satKey.isPrefixOf field then
    match parseInt? (trimPre satKey field) with
    | some n => .ok { p with Satellites := n }
    | none => .error "invalid int"
  else if accKey.isPrefixOf field then
    match splitOnChar ':' field with
    | [_, payload] =>
      match splitOnChar ',' payload with
      | [a, b, c] =>
        match parseFloat? a, parseFloat? b, parseFloat? c with
        | some x, some y, some z => .ok { p with Acceleration := (x, y, z) }
        | _, _, _ => .error "invalid float"
      | _ => .error "bad accel values"
    | _ => .error "bad accel field"
  else
    .ok p

/-- The `for _, field := range parts[1:]` loop of `ParsePacket`: fields are
folded left to right, the first failing field aborts the line. -/
def processFields (p : Packet) : List GoStr → Except String Packet
  | [] => .ok p
  | f :: fs =>
    match parseField p f with
    | .error e => .error e
    | .ok q => processFields q fs

/-- `ParsePacket` (`parser.go` lines 17-80): trim the line, reject an empty
line, split on `;`, reject fewer than 6 fields, then process the fields
after the first. -/
def parsePacket (line : GoStr) : Except String Packet :=
  let l := trimSpace line
  if l = [] then .error "empty line"
  else
    let parts := splitOnChar ';' l
    if parts.length < 6 then .error "not enough fields"
    else processFields Packet.zero parts.tail

/-- Whether an `Except` result is the error case (Go: the returned `error`
is non-nil). -/
def Except.isErr : Except ε α → Bool
  | .error _ => true
  | .ok _ => false

/-- A field beginning with `"Acceleration"` that the `Acceleration` arm of
`ParsePacket` rejects: it does not split on `:` into exactly two parts, or
the payload does not split on `,` into exactly three parts, or one of the
three components is not numeric. -/
def accelBad (f : GoStr) : Bool :=
  match splitOnChar ':' f with
  | [_, payload] =>
    match splitOnChar ',' payload with
    | [a, b, c] => (parseFloat? a).isNone || (parseFloat? b).isNone || (parseFloat? c).isNone
    | _ => true
  | _ => true

/-- The spec's decode-failure condition for a single field: a recognized
numeric field (`Latitude`, `Longitude`, `Satellites`) whose payload fails
to parse, or an `Acceleration` field without exactly 3 comma-separated
numeric components behind a single `:`. -/
def fieldBad (f : GoStr) : Bool :=
  (latKey.isPrefixOf f && (parseFloat? (trimPre latKey f)).isNone) ||
  (lonKey.isPrefixOf f && (parseFloat? (trimPre lonKey f)).isNone) ||
  (satKey.isPrefixOf f && (parseInt? (trimPre satKey f)).isNone) ||
  (accKey.isPrefixOf f && accelBad f)

/-- Whether a field carries one of the five recognized key tags. -/
def recognizedField (f : GoStr) : Bool :=
  timeKey.isPrefixOf f || latKey.isPrefixOf f || lonKey.isPrefixOf f ||
    satKey.isPrefixOf f || accKey.isPrefixOf f

/-- The acceleration triple a well-formed `Acceleration` field denotes. -/
def accelTriple? (f : GoStr) : Option (ℚ × ℚ × ℚ) :=
  match splitOnChar ':' f with
  | [_, payload] =>
    match splitOnChar ',' payload with
    | [a, b, c] =>
      match parseFloat? a, parseFloat? b, parseFloat? c with
      | some x, some y, some z => some (x, y, z)
      | _, _, _ => none
    | _ => none
  | _ => none

/-- The record update a single well-formed field performs: the successful
branches of `parseField`, as a total function (used to characterize the
fold over the fields of a line). -/
def applyGoodField (p : Packet) (f : GoStr) : Packet :=
  if timeKey.isPrefixOf f then { p with Time := trimPre timeKey f }
  else if latKey.isPrefixOf f then { p with Latitude := (parseFloat? (trimPre latKey f)).getD 0 }
  else if lonKey.isPrefixOf f then { p with Longitude := (parseFloat? (trimPre lonKey f)).getD 0 }
  else if satKey.isPrefixOf f then { p with Satellites := (parseInt? (trimPre satKey f)).getD 0 }
  else if accKey.isPrefixOf f then { p with Acceleration := (accelTriple? f).getD p.Acceleration }
  else p

/-!  ### The persistence store

`StoredPacket` is the row type of the `packets` table; the store itself is
embedded as the list of its rows.  `created_at` / `updated_at` are
`TIMESTAMP` columns modelled as natural numbers; `ORDER BY created_at` in
the queries becomes an insertion sort by that key (SQL leaves the relative
order of equal keys unspecified, and so does the model). -/

/-- `StoredPacket` of the database layer: a row of the `packets` table. -/
structure StoredPacket where
  ID : ℤ
  Time : String
  Latitude : ℚ
  Longitude : ℚ
  Satellites : ℤ
  AccelerationX : ℚ
  AccelerationY : ℚ
  AccelerationZ : ℚ
  CreatedAt : ℕ
  UpdatedAt : ℕ
  deriving DecidableEq, Repr

/-- `ORDER BY created_at DESC`: later creation time first. -/
def createdDesc (a b : StoredPacket) : Prop := b.CreatedAt ≤ a.CreatedAt

/-- `ORDER BY created_at ASC`: earlier creation time first. -/
def createdAsc (a b : StoredPacket) : Prop := a.CreatedAt ≤ b.CreatedAt

instance : DecidableRel createdDesc := fun a b =>
  inferInstanceAs (Decidable (b.CreatedAt ≤ a.CreatedAt))

instance : DecidableRel createdAsc := fun a b =>
  inferInstanceAs (Decidable (a.CreatedAt ≤ b.CreatedAt))

instance : IsTotal StoredPacket createdDesc :=
  ⟨fun a b => (Nat.le_total a.CreatedAt b.CreatedAt).symm⟩

instance : IsTotal StoredPacket createdAsc :=
  ⟨fun a b => Nat.le_total a.CreatedAt b.CreatedAt⟩

instance : IsTrans StoredPacket createdDesc :=
  ⟨fun _ _ _ hab hbc => Nat.le_trans hbc hab⟩

instance : IsTrans StoredPacket createdAsc :=
  ⟨fun _ _ _ hab hbc => Nat.le_trans hab hbc⟩

/-- The optional `LIMIT` clause: `GetPackets`/`GetAccelerationSeries`
append `LIMIT n` only when `0 < limit`. -/
def applyLimit (limit : ℤ) (l : List α) : List α :=
  if 0 < limit then l.take limit.toNat else l

/-- `GetPackets`: `SELECT ... FROM packets ORDER BY created_at DESC`,
optionally capped by `LIMIT`. -/
def getPackets (store : List StoredPacket) (limit : ℤ) : List StoredPacket :=
  applyLimit limit (List.insertionSort createdDesc store)

/-- `GetLatestPacket`: `ORDER BY created_at DESC LIMIT 1`; `sql.ErrNoRows`
on an empty store is translated to the non-error result `(nil, nil)`,
i.e. `.ok none`. -/
def getLatestPacket (store : List StoredPacket) : Except String (Option StoredPacket) :=
  .ok (List.insertionSort createdDesc store).head?

/-- `GetPacketCount`: `SELECT COUNT(*) FROM packets`. -/
def getPacketCount (store : List StoredPacket) : Except String ℕ :=
  .ok store.length

/-- `DeleteAllPackets`: `DELETE FROM packets`. -/
def deleteAllPackets (_store : List StoredPacket) : List StoredPacket := []

/-- `GetAccelerationSeries`: `SELECT acceleration_z FROM packets ORDER BY
created_at ASC`, optionally capped by `LIMIT`.  (Go converts each value
`float64 → float32`; in the exact rational model the projection is kept
exact.) -/
def getAccelerationSeries (store : List StoredPacket) (limit : ℤ) : List ℚ :=
  (applyLimit limit (List.insertionSort createdAsc store)).map (fun p => p.AccelerationZ)

/-!  ### Decimal formatting (`strconv`) -/

/-- `'0' + k` for a digit value `k ≤ 9` (larger values never arise). -/
def digitChar (k : ℕ) : Char :=
  match k with
  | 0 => '0' | 1 => '1' | 2 => '2' | 3 => '3' | 4 => '4'
  | 5 => '5' | 6 => '6' | 7 => '7' | 8 => '8' | _ => '9'

/-- Decimal digits of `n`, most significant first (`strconv.Itoa` on a
natural number). -/
def natChars (n : ℕ) : List Char :=
  if n < 10 then [digitChar n]
  else natChars (n / 10) ++ [digitChar (n % 10)]
termination_by n
decreasing_by exact Nat.div_lt_self (by omega) (by norm_num)

/-- `strconv.Itoa` / `strconv.FormatInt base 10`. -/
def intStr (i : ℤ) : String :=
  (if i < 0 then "-" else "") ++ String.mk (natChars i.natAbs)

/-- Exactly `prec` decimal digits of `n` (mod `10 ^ prec`), most
significant first, zero-padded. -/
def decFixed : ℕ → ℕ → List Char
  | 0, _ => []
  | p + 1, n => decFixed p (n / 10) ++ [digitChar (n % 10)]

/-- Round to the nearest integer, halves away from zero (the tie behaviour
of binary `strconv.FormatFloat` is irrelevant at the claims' precision). -/
def roundHalfAway (q : ℚ) : ℤ :=
  if q < 0 then -⌊-q + 1 / 2⌋ else ⌊q + 1 / 2⌋

/-- `strconv.FormatFloat (v, 'f', prec, 64)` on the exact rational value:
fixed-point decimal with exactly `prec` digits after the point. -/
def fmtF (prec : ℕ) (q : ℚ) : String :=
  let n : ℕ := (roundHalfAway (|q| * (10 : ℚ) ^ prec)).toNat
  (if q < 0 then "-" else "") ++ String.mk (natChars (n / 10 ^ prec)) ++
    (if prec = 0 then "" else "." ++ String.mk (decFixed prec (n % 10 ^ prec)))

/-- Number of characters after the last `'.'` of a string. -/
def fracLen (s : String) : ℕ :=
  (s.data.reverse.takeWhile (fun c => c != '.')).length

/-!  ### Export -/

/-- `time.Time.Format "2006-01-02 15:04:05"`: the calendar rendering of a
timestamp is abstracted to a decimal rendering of the model timestamp (the
claims constrain only the column's presence, not the date syntax). -/
def goFormatTime (t : ℕ) : String := String.mk (natChars t)

/-- The header row `SavePacketsToCSV` always writes first. -/
def csvHeader : List String :=
  ["ID", "Time", "Latitude", "Longitude", "Satellites",
   "AccelerationX", "AccelerationY", "AccelerationZ", "CreatedAt", "UpdatedAt"]

/-- One CSV data row: the fixed column order and `strconv` formatting of
`SavePacketsToCSV` (coordinates with 6 decimals, accelerations with 3). -/
def csvRow (p : StoredPacket) : List String :=
  [intStr p.ID, p.Time, fmtF 6 p.Latitude, fmtF 6 p.Longitude, intStr p.Satellites,
   fmtF 3 p.AccelerationX, fmtF 3 p.AccelerationY, fmtF 3 p.AccelerationZ,
   goFormatTime p.CreatedAt, goFormatTime p.UpdatedAt]

/-- The records `SavePacketsToCSV` hands to `csv.Writer` (which writes one
line per record): the header followed by one row per packet returned by
`GetPackets limit`. -/
def savePacketsToCSVRecords (store : List StoredPacket) (limit : ℤ) : List (List String) :=
  csvHeader :: (getPackets store limit).map csvRow

/-- JSON values, as far as `encoding/json` output needs to be told apart. -/
inductive JVal where
  | null : JVal
  | num (q : ℚ) : JVal
  | str (s : String) : JVal
  | arr (elems : List JVal) : JVal
  | obj (fields : List (String × JVal)) : JVal

/-- The JSON object `encoding/json` produces for one `StoredPacket`, with
the struct tags of the Go type as field names (`time.Time` marshals as a
string; its rendering is abstracted by `goFormatTime`). -/
def jvalOfStored (p : StoredPacket) : JVal :=
  .obj [("id", .num p.ID), ("time", .str p.Time), ("latitude", .num p.Latitude),
        ("longitude", .num p.Longitude), ("satellites", .num p.Satellites),
        ("acceleration_x", .num p.AccelerationX), ("acceleration_y", .num p.AccelerationY),
        ("acceleration_z", .num p.AccelerationZ), ("created_at", .str (goFormatTime p.CreatedAt)),
        ("updated_at", .str (goFormatTime p.UpdatedAt))]

/-- The JSON value `SavePacketsToJSON` encodes.  `GetPackets` builds its
result with `var packets []StoredPacket` and `append`, so zero rows leave
the slice `nil`, and `encoding/json` encodes a nil slice as the JSON
`null` literal, not as an empty array. -/
def savePacketsToJSONValue (store : List StoredPacket) (limit : ℤ) : JVal :=
  match getPackets store limit with
  | [] => .null
  | rows => .arr (rows.map jvalOfStored)

/-!  ### The live buffer and the frame-event rings -/

/-- Capacity of the `packets` channel (`make (chan Packet, 128)`). -/
def liveBufferCap : ℕ := 128

/-- The non-blocking enqueue of `startSerialReader` (`main.go`): a `select`
with a default that, when the channel is full, receives one element (the
oldest) and then sends the new one.  In the sequential model: append when
there is room, otherwise drop the head first. -/
def liveOffer (buf : List Packet) (p : Packet) : List Packet :=
  if buf.length < liveBufferCap then buf ++ [p] else buf.drop 1 ++ [p]

/-- `seriesCapacity` of `main.go`. -/
def seriesCapacity : ℕ := 300

/-- `logCapacity` of `main.go`. -/
def logCapacity : ℕ := 200

/-- The slice-append-then-retrim idiom of the frame-event handler:
`xs = append(xs, x); if len(xs) > cap { xs = xs[len(xs)-cap:] }`. -/
def ringAppend (cap : ℕ) (xs : List α) (x : α) : List α :=
  let ys := xs ++ [x]
  if cap < ys.length then ys.drop (ys.length - cap) else ys

/-- The z-axis acceleration sample pushed into the live series. -/
def accZ (p : Packet) : ℚ := p.Acceleration.2.2

/-- The log line of the drain loop:
`fmt.Sprintf` with `%.6f` coordinates and `%.2f` z-acceleration. -/
def formatLogLine (p : Packet) : String :=
  String.mk p.Time ++ " Lat:" ++ fmtF 6 p.Latitude ++ " Lon:" ++ fmtF 6 p.Longitude ++
    " Sat:" ++ intStr p.Satellites ++ " AccZ:" ++ fmtF 2 (accZ p)

/-- The two fixed-capacity display caches of `UIState` the drain loop
maintains. -/
structure DisplayState where
  Series : List ℚ
  LogLines : List String

/-- One iteration of the `drain` loop of the frame-event handler: push the
z-sample into the live series and the formatted line into the log ring,
each retrimmed to its capacity. -/
def drainStep (s : DisplayState) (p : Packet) : DisplayState :=
  { Series := ringAppend seriesCapacity s.Series (accZ p),
    LogLines := ringAppend logCapacity s.LogLines (formatLogLine p) }

/-!  ## Evaluation lemmas for the concrete reference line -/

lemma parseInt_9 : parseInt? ['9'] = some 9 := by decide

lemma parseFloat_54_1 : parseFloat? ['5','4','.','1'] = some 54.1 := by
  simp +decide only [parseFloat?]
  norm_num [show List.takeWhile Char.isDigit ['5','4','.','1'] = ['5','4'] from by decide,
    show (List.dropWhile Char.isDigit ['5','4','.','1']).tail = ['1'] from by decide,
    show List.takeWhile Char.isDigit ['1'] = ['1'] from by decide,
    show digitsToNat ['5','4'] = 54 from by decide,
    show digitsToNat ['1'] = 1 from by decide]

lemma parseFloat_25_2 : parseFloat? ['2','5','.','2'] = some 25.2 := by
  simp +decide only [parseFloat?]
  norm_num [show List.takeWhile Char.isDigit ['2','5','.','2'] = ['2','5'] from by decide,
    show (List.dropWhile Char.isDigit ['2','5','.','2']).tail = ['2'] from by decide,
    show List.takeWhile Char.isDigit ['2'] = ['2'] from by decide,
    show digitsToNat ['2','5'] = 25 from by decide,
    show digitsToNat ['2'] = 2 from by decide]

lemma parseFloat_0_1 : parseFloat? ['0','.','1'] = some 0.1 := by
  simp +decide only [parseFloat?]
  norm_num [show List.takeWhile Char.isDigit ['0','.','1'] = ['0'] from by decide,
    show (List.dropWhile Char.isDigit ['0','.','1']).tail = ['1'] from by decide,
    show List.takeWhile Char.isDigit ['1'] = ['1'] from by decide,
    show digitsToNat ['0'] = 0 from by decide,
    show digitsToNat ['1'] = 1 from by decide]

lemma parseFloat_neg_0_2 : parseFloat? ['-','0','.','2'] = some (-0.2) := by
  simp +decide only [parseFloat?]
  norm_num [show List.takeWhile Char.isDigit ['0','.','2'] = ['0'] from by decide,
    show (List.dropWhile Char.isDigit ['0','.','2']).tail = ['2'] from by decide,
    show List.takeWhile Char.isDigit ['2'] = ['2'] from by decide,
    show digitsToNat ['0'] = 0 from by decide,
    show digitsToNat ['2'] = 2 from by decide]

lemma parseFloat_0_3 : parseFloat? ['0','.','3'] = some 0.3 := by
  simp +decide only [parseFloat?]
  norm_num [show List.takeWhile Char.isDigit ['0','.','3'] = ['0'] from by decide,
    show (List.dropWhile Char.isDigit ['0','.','3']).tail = ['3'] from by decide,
    show List.takeWhile Char.isDigit ['3'] = ['3'] from by decide,
    show digitsToNat ['0'] = 0 from by decide,
    show digitsToNat ['3'] = 3 from by decide]

set_option maxRecDepth 8000 in
/-- C2: decoding the reference line
`ignored;Time-12:00:00;Latitude-54.1;Longitude-25.2;Satellites-9;Acceleration:0.1,-0.2,0.3`
succeeds and yields exactly the record with time `12:00:00`, latitude
`54.1`, longitude `25.2`, 9 satellites and acceleration `(0.1, -0.2, 0.3)`. -/
theorem C2_decode_reference_line :
    parsePacket "ignored;Time-12:00:00;Latitude-54.1;Longitude-25.2;Satellites-9;Acceleration:0.1,-0.2,0.3".data =
      .ok ⟨"12:00:00".data, 54.1, 25.2, 9, (0.1, -0.2, 0.3)⟩ := by
  have htrim : trimSpace "ignored;Time-12:00:00;Latitude-54.1;Longitude-25.2;Satellites-9;Acceleration:0.1,-0.2,0.3".data
      = "ignored;Time-12:00:00;Latitude-54.1;Longitude-25.2;Satellites-9;Acceleration:0.1,-0.2,0.3".data := by decide
  have hsplit : splitOnChar ';' "ignored;Time-12:00:00;Latitude-54.1;Longitude-25.2;Satellites-9;Acceleration:0.1,-0.2,0.3".data
      = ["ignored".data, "Time-12:00:00".data, "Latitude-54.1".data, "Longitude-25.2".data,
         "Satellites-9".data, "Acceleration:0.1,-0.2,0.3".data] := by decide
  have e1 : parseField Packet.zero "Time-12:00:00".data = .ok ⟨"12:00:00".data, 0, 0, 0, (0, 0, 0)⟩ := rfl
  have e2 : parseField ⟨"12:00:00".data, 0, 0, 0, (0, 0, 0)⟩ "Latitude-54.1".data
      = .ok ⟨"12:00:00".data, 54.1, 0, 0, (0, 0, 0)⟩ := by
    simp +decide only [parseField, if_true, if_false,
      show trimPre latKey "Latitude-54.1".data = ['5','4','.','1'] from by decide, parseFloat_54_1]
  have e3 : parseField ⟨"12:00:00".data, 54.1, 0, 0, (0, 0, 0)⟩ "Longitude-25.2".data
      = .ok ⟨"12:00:00".data, 54.1, 25.2, 0, (0, 0, 0)⟩ := by
    simp +decide only [parseField, if_true, if_false,
      show trimPre lonKey "Longitude-25.2".data = ['2','5','.','2'] from by decide, parseFloat_25_2]
  have e4 : parseField ⟨"12:00:00".data, 54.1, 25.2, 0, (0, 0, 0)⟩ "Satellites-9".data
      = .ok ⟨"12:00:00".data, 54.1, 25.2, 9, (0, 0, 0)⟩ := by
    simp +decide only [parseField, if_true, if_false,
      show trimPre satKey "Satellites-9".data = ['9'] from by decide, parseInt_9]
  have e5 : parseField ⟨"12:00:00".data, 54.1, 25.2, 9, (0, 0, 0)⟩ "Acceleration:0.1,-0.2,0.3".data
      = .ok ⟨"12:00:00".data, 54.1, 25.2, 9, (0.1, -0.2, 0.3)⟩ := by
    simp +decide only [parseField, if_true, if_false,
      show splitOnChar ':' "Acceleration:0.1,-0.2,0.3".data
        = ["Acceleration".data, "0.1,-0.2,0.3".data] from by decide,
      show splitOnChar ',' "0.1,-0.2,0.3".data
        = [['0','.','1'], ['-','0','.','2'], ['0','.','3']] from by decide,
      parseFloat_0_1, parseFloat_neg_0_2, parseFloat_0_3]
  simp +decide only [parsePacket, htrim, hsplit, processFields, e1, e2, e3, e4, e5, if_true, if_false]

/-!  ## C3: the live buffer never exceeds its capacity -/

lemma liveOffer_length_le (buf : List Packet) (p : Packet) (h : buf.length ≤ liveBufferCap) :
    (liveOffer buf p).length ≤ liveBufferCap := by
  simp only [liveOffer, liveBufferCap] at h ⊢
  split
  · simp only [List.length_append, List.length_cons, List.length_nil]
    omega
  · simp only [List.length_append, List.length_drop, List.length_cons, List.length_nil]
    omega

lemma foldl_liveOffer_length (seq : List Packet) :
    ∀ buf : List Packet, buf.length ≤ liveBufferCap →
      (seq.foldl liveOffer buf).length ≤ liveBufferCap := by
  induction seq with
  | nil => intro buf h; simpa using h
  | cons p seq ih =>
    intro buf h
    simp only [List.foldl_cons]
    exact ih _ (liveOffer_length_le buf p h)

lemma foldl_liveOffer_eq_drop (seq : List Packet) :
    seq.foldl liveOffer [] = seq.drop (seq.length - liveBufferCap) := by
  induction seq using List.reverseRecOn with
  | nil => simp
  | append_singleton xs x ih =>
    rw [List.foldl_append, List.foldl_cons, List.foldl_nil, ih]
    simp only [liveOffer, liveBufferCap, List.length_append, List.length_cons, List.length_nil]
    by_cases hlt : xs.length < 128
    · rw [if_pos (by simp only [List.length_drop]; omega)]
      have h0 : xs.length - 128 = 0 := by omega
      have h1 : xs.length + 1 - 128 = 0 := by omega
      rw [h0, h1, List.drop_zero, List.drop_zero]
    · rw [if_neg (by simp only [List.length_drop]; omega)]
      have hd : (xs ++ [x]).drop (xs.length + 1 - 128) = xs.drop (xs.length + 1 - 128) ++ [x] :=
        List.drop_append_of_le_length (by omega)
      have harith : xs.length - 128 + 1 = xs.length + 1 - 128 := by omega
      rw [List.drop_drop, harith, hd]

/-- C3: for any sequence of enqueues, the live buffer (capacity 128)
never exceeds its capacity, and starting from an empty buffer the retained
contents are exactly the most recent 128 items in arrival order (the
drop-oldest policy evicts exactly one oldest item per full insert, so the
retained items are a suffix of the decode-ordered arrivals). -/
theorem C3_live_buffer_bound_and_order (seq buf : List Packet) (h : buf.length ≤ liveBufferCap) :
    (seq.foldl liveOffer buf).length ≤ liveBufferCap ∧
    seq.foldl liveOffer [] = seq.drop (seq.length - liveBufferCap) ∧
    liveBufferCap = 128 :=
  ⟨foldl_liveOffer_length seq buf h, foldl_liveOffer_eq_drop seq, rfl⟩

/-- Witness for C3 at the concrete input `seq = [], buf = []`. -/
theorem C3_live_buffer_witness :
    (([] : List Packet).foldl liveOffer []).length ≤ liveBufferCap ∧
    ([] : List Packet).foldl liveOffer [] =
      ([] : List Packet).drop (([] : List Packet).length - liveBufferCap) ∧
    liveBufferCap = 128 :=
  C3_live_buffer_bound_and_order [] [] (Nat.zero_le _)

/-!  ## C8: the display rings never exceed their capacities -/

lemma ringAppend_length_le (cap : ℕ) (xs : List α) (x : α) (h : xs.length ≤ cap) :
    (ringAppend cap xs x).length ≤ cap := by
  simp only [ringAppend]
  split
  next hcond =>
    simp only [List.length_drop, List.length_append, List.length_cons, List.length_nil] at hcond ⊢
    omega
  next hcond =>
    simp only [List.length_append, List.length_cons, List.length_nil] at hcond ⊢
    omega

lemma ringAppend_of_length_eq (cap : ℕ) (xs : List α) (x : α) (hc : 0 < cap)
    (h : xs.length = cap) : ringAppend cap xs x = xs.drop 1 ++ [x] := by
  simp only [ringAppend]
  rw [if_pos (by simp only [List.length_append, List.length_cons, List.length_nil]; omega)]
  have hd : (xs ++ [x]).drop 1 = xs.drop 1 ++ [x] :=
    List.drop_append_of_le_length (by omega)
  have harith : (xs ++ [x]).length - cap = 1 := by
    simp only [List.length_append, List.length_cons, List.length_nil]; omega
  rw [harith, hd]

lemma ringAppend_of_length_lt (cap : ℕ) (xs : List α) (x : α) (h : xs.length < cap) :
    ringAppend cap xs x = xs ++ [x] := by
  simp only [ringAppend]
  rw [if_neg (by simp only [List.length_append, List.length_cons, List.length_nil]; omega)]

/-- C8: one drain step of the frame-event handler keeps the live series
within capacity 300 and the log ring within capacity 200; at capacity the
oldest entry is evicted first and the retained suffix keeps its order;
below capacity the new entry is appended with nothing evicted. -/
theorem C8_display_rings_bound_and_fifo (s : DisplayState) (p : Packet)
    (hs : s.Series.length ≤ seriesCapacity) (hl : s.LogLines.length ≤ logCapacity) :
    (drainStep s p).Series.length ≤ seriesCapacity ∧
    (drainStep s p).LogLines.length ≤ logCapacity ∧
    (s.Series.length = seriesCapacity →
      (drainStep s p).Series = s.Series.drop 1 ++ [accZ p]) ∧
    (s.Series.length < seriesCapacity →
      (drainStep s p).Series = s.Series ++ [accZ p]) ∧
    (s.LogLines.length = logCapacity →
      (drainStep s p).LogLines = s.LogLines.drop 1 ++ [formatLogLine p]) ∧
    (s.LogLines.length < logCapacity →
      (drainStep s p).LogLines = s.LogLines ++ [formatLogLine p]) ∧
    seriesCapacity = 300 ∧ logCapacity = 200 :=
  ⟨ringAppend_length_le _ _ _ hs, ringAppend_length_le _ _ _ hl,
   fun h => ringAppend_of_length_eq _ _ _ (by norm_num [seriesCapacity]) h,
   fun h => ringAppend_of_length_lt _ _ _ h,
   fun h => ringAppend_of_length_eq _ _ _ (by norm_num [logCapacity]) h,
   fun h => ringAppend_of_length_lt _ _ _ h, rfl, rfl⟩

/-- Witness for C8 at the concrete state with empty series and log ring. -/
theorem C8_display_rings_witness :
    (drainStep ⟨[], []⟩ Packet.zero).Series.length ≤ seriesCapacity ∧
    (drainStep ⟨[], []⟩ Packet.zero).LogLines.length ≤ logCapacity ∧
    ((DisplayState.mk [] []).Series.length = seriesCapacity →
      (drainStep ⟨[], []⟩ Packet.zero).Series = (DisplayState.mk [] []).Series.drop 1 ++ [accZ Packet.zero]) ∧
    ((DisplayState.mk [] []).Series.length < seriesCapacity →
      (drainStep ⟨[], []⟩ Packet.zero).Series = (DisplayState.mk [] []).Series ++ [accZ Packet.zero]) ∧
    ((DisplayState.mk [] []).LogLines.length = logCapacity →
      (drainStep ⟨[], []⟩ Packet.zero).LogLines = (DisplayState.mk [] []).LogLines.drop 1 ++ [formatLogLine Packet.zero]) ∧
    ((DisplayState.mk [] []).LogLines.length < logCapacity →
      (drainStep ⟨[], []⟩ Packet.zero).LogLines = (DisplayState.mk [] []).LogLines ++ [formatLogLine Packet.zero]) ∧
    seriesCapacity = 300 ∧ logCapacity = 200 :=
  C8_display_rings_bound_and_fifo ⟨[], []⟩ Packet.zero (Nat.zero_le _) (Nat.zero_le _)

/-!  ## C9: delete-all, count and latest -/

/-- C9: after `DeleteAllPackets`, `GetPacketCount` reports zero and
`GetLatestPacket` returns the explicit non-error "none" result
(`(nil, nil)` in Go), not an error. -/
theorem C9_delete_all_count_latest (store : List StoredPacket) :
    getPacketCount (deleteAllPackets store) = .ok 0 ∧
    getLatestPacket (deleteAllPackets store) = .ok none :=
  ⟨rfl, rfl⟩

/-!  ## C6: the JSON export of zero rows -/

/-- Counterexample to C6 as stated: with the store empty, the value
written by `SavePacketsToJSON` is the JSON `null` literal, not the empty
list `[]`. -/
theorem C6_json_zero_rows_counterexample :
    savePacketsToJSONValue [] 0 = JVal.null ∧ savePacketsToJSONValue [] 0 ≠ JVal.arr [] :=
  ⟨rfl, fun h => nomatch h⟩

/-- C6 as amended: exporting zero rows writes the JSON `null` literal
(the `encoding/json` encoding of a nil slice) — well-formed JSON, but the
null marker rather than an empty list. -/
theorem C6_json_zero_rows_null (limit : ℤ) :
    savePacketsToJSONValue [] limit = JVal.null := by
  unfold savePacketsToJSONValue getPackets applyLimit
  simp [List.insertionSort]

/-!  ## C4: query orderings and limits -/

/-- C4: for the same stored data, `GetPackets limit` is sorted most recent
first and is the whole store (as a permutation) when `limit ≤ 0`, or the
first `limit` rows of the sorted store otherwise; `GetAccelerationSeries`
projects the z-acceleration of the rows sorted oldest first, capped the
same way. -/
theorem C4_list_desc_series_asc (store : List StoredPacket) (limit : ℤ) :
    List.Sorted createdDesc (getPackets store limit) ∧
    (limit ≤ 0 → (getPackets store limit).Perm store) ∧
    (0 < limit → (getPackets store limit).length = min limit.toNat store.length) ∧
    List.Sorted createdAsc (List.insertionSort createdAsc store) ∧
    (List.insertionSort createdAsc store).Perm store ∧
    getAccelerationSeries store limit =
      (applyLimit limit (List.insertionSort createdAsc store)).map (fun p => p.AccelerationZ) ∧
    (limit ≤ 0 → (getAccelerationSeries store limit).length = store.length) ∧
    (0 < limit → (getAccelerationSeries store limit).length = min limit.toNat store.length) := by
  refine ⟨?_, ?_, ?_, List.sorted_insertionSort _ _, List.perm_insertionSort _ _, rfl, ?_, ?_⟩
  · unfold getPackets applyLimit
    split
    · exact List.Pairwise.sublist (List.take_sublist _ _) (List.sorted_insertionSort _ _)
    · exact List.sorted_insertionSort _ _
  · intro h
    unfold getPackets applyLimit
    rw [if_neg (by omega)]
    exact List.perm_insertionSort _ _
  · intro h
    unfold getPackets applyLimit
    rw [if_pos h]
    simp [List.length_take, List.length_insertionSort]
  · intro h
    unfold getAccelerationSeries applyLimit
    rw [if_neg (by omega)]
    simp [List.length_map, List.length_insertionSort]
  · intro h
    unfold getAccelerationSeries applyLimit
    rw [if_pos h]
    simp [List.length_map, List.length_take, List.length_insertionSort]

/-!  ## C5: CSV column order and fixed decimal precision -/

lemma digitChar_ne_dot (k : ℕ) : digitChar k ≠ '.' := by
  unfold digitChar
  split <;> decide

lemma decFixed_length (p : ℕ) : ∀ n, (decFixed p n).length = p := by
  induction p with
  | zero => intro n; rfl
  | succ p ih =>
    intro n
    simp [decFixed, ih]

lemma mem_decFixed_ne_dot (p : ℕ) : ∀ n c, c ∈ decFixed p n → c ≠ '.' := by
  induction p with
  | zero =>
    intro n c hc
    simp [decFixed] at hc
  | succ p ih =>
    intro n c hc
    simp only [decFixed, List.mem_append, List.mem_singleton] at hc
    rcases hc with h | h
    · exact ih _ _ h
    · rw [h]; exact digitChar_ne_dot _

lemma takeWhile_all_append (P : Char → Bool) (l r : List Char) (c : Char)
    (hl : ∀ a ∈ l, P a = true) (hc : P c = false) :
    (l ++ c :: r).takeWhile P = l := by
  induction l with
  | nil => simp [List.takeWhile_cons, hc]
  | cons a l ih =>
    have ha : P a = true := hl a (by simp)
    simp only [List.cons_append, List.takeWhile_cons, ha, if_true]
    rw [ih (fun b hb => hl b (by simp [hb]))]

lemma fmtF_fracLen (prec : ℕ) (hp : prec ≠ 0) (q : ℚ) :
    fracLen (fmtF prec q) = prec ∧ '.' ∈ (fmtF prec q).data := by
  simp only [fmtF]
  rw [if_neg hp]
  constructor
  · simp only [fracLen, String.data_append]
    simp only [List.append_assoc, List.reverse_append, List.reverse_cons, List.reverse_nil,
      List.nil_append, List.singleton_append, List.cons_append]
    rw [takeWhile_all_append]
    · simp [decFixed_length]
    · intro a ha
      simp only [List.mem_reverse] at ha
      simp [mem_decFixed_ne_dot prec _ a ha]
    · decide
  · simp

/-- C5: the CSV export always writes the header row first (also for zero
rows), data rows follow in the fixed column order (identifier, time,
latitude, longitude, satellite count, the three acceleration axes, then
the created/updated timestamps), and coordinates carry exactly 6 decimal
places and acceleration components exactly 3. -/
theorem C5_csv_columns_and_precision (store : List StoredPacket) (limit : ℤ) (p : StoredPacket) :
    (savePacketsToCSVRecords store limit).head? = some csvHeader ∧
    savePacketsToCSVRecords store limit = csvHeader :: (getPackets store limit).map csvRow ∧
    csvRow p = [intStr p.ID, p.Time, fmtF 6 p.Latitude, fmtF 6 p.Longitude, intStr p.Satellites,
      fmtF 3 p.AccelerationX, fmtF 3 p.AccelerationY, fmtF 3 p.AccelerationZ,
      goFormatTime p.CreatedAt, goFormatTime p.UpdatedAt] ∧
    (fracLen (fmtF 6 p.Latitude) = 6 ∧ '.' ∈ (fmtF 6 p.Latitude).data) ∧
    (fracLen (fmtF 6 p.Longitude) = 6 ∧ '.' ∈ (fmtF 6 p.Longitude).data) ∧
    (fracLen (fmtF 3 p.AccelerationX) = 3 ∧ '.' ∈ (fmtF 3 p.AccelerationX).data) ∧
    (fracLen (fmtF 3 p.AccelerationY) = 3 ∧ '.' ∈ (fmtF 3 p.AccelerationY).data) ∧
    (fracLen (fmtF 3 p.AccelerationZ) = 3 ∧ '.' ∈ (fmtF 3 p.AccelerationZ).data) :=
  ⟨rfl, rfl, rfl,
   fmtF_fracLen 6 (by norm_num) _, fmtF_fracLen 6 (by norm_num) _,
   fmtF_fracLen 3 (by norm_num) _, fmtF_fracLen 3 (by norm_num) _,
   fmtF_fracLen 3 (by norm_num) _⟩

/-!  ## C1, C7, C10: characterizing the field dispatch -/

lemma isPre_iff {a f : GoStr} : a.isPrefixOf f = true ↔ a <+: f :=
  List.isPrefixOf_iff_prefix

lemma isPre_excl {a b : GoStr} (hna : ¬ a <+: b) (hnb : ¬ b <+: a) :
    ∀ f : GoStr, a.isPrefixOf f = true → b.isPrefixOf f = false := by
  intro f h1
  cases hb : b.isPrefixOf f with
  | false => rfl
  | true =>
    exfalso
    have h1p : a <+: f := isPre_iff.mp h1
    have hbp : b <+: f := isPre_iff.mp hb
    rcases List.prefix_or_prefix_of_prefix h1p hbp with h | h
    · exact hna h
    · exact hnb h

lemma parseField_isErr_eq (p : Packet) (f : GoStr) : (parseField p f).isErr = fieldBad f := by
  unfold parseField fieldBad
  cases ht : timeKey.isPrefixOf f with
  | true =>
    have h1 : latKey.isPrefixOf f = false := isPre_excl (by decide) (by decide) f ht
    have h2 : lonKey.isPrefixOf f = false := isPre_excl (by decide) (by decide) f ht
    have h3 : satKey.isPrefixOf f = false := isPre_excl (by decide) (by decide) f ht
    have h4 : accKey.isPrefixOf f = false := isPre_excl (by decide) (by decide) f ht
    simp [ht, h1, h2, h3, h4, Except.isErr]
  | false =>
    cases hl : latKey.isPrefixOf f with
    | true =>
      have h2 : lonKey.isPrefixOf f = false := isPre_excl (by decide) (by decide) f hl
      have h3 : satKey.isPrefixOf f = false := isPre_excl (by decide) (by decide) f hl
      have h4 : accKey.isPrefixOf f = false := isPre_excl (by decide) (by decide) f hl
      simp only [ht, hl, h2, h3, h4]
      cases parseFloat? (trimPre latKey f) <;> simp [Except.isErr]
    | false =>
      cases ho : lonKey.isPrefixOf f with
      | true =>
        have h3 : satKey.isPrefixOf f = false := isPre_excl (by decide) (by decide) f ho
        have h4 : accKey.isPrefixOf f = false := isPre_excl (by decide) (by decide) f ho
        simp only [ht, hl, ho, h3, h4]
        cases parseFloat? (trimPre lonKey f) <;> simp [Except.isErr]
      | false =>
        cases hs : satKey.isPrefixOf f with
        | true =>
          have h4 : accKey.isPrefixOf f = false := isPre_excl (by decide) (by decide) f hs
          simp only [ht, hl, ho, hs, h4]
          cases parseInt? (trimPre satKey f) <;> simp [Except.isErr]
        | false =>
          cases ha : accKey.isPrefixOf f with
          | true =>
            simp only [ht, hl, ho, hs, ha]
            unfold accelBad
            rcases hsp : splitOnChar ':' f with _ | ⟨x, _ | ⟨y, _ | ⟨z, l3⟩⟩⟩ <;>
              simp [hsp, Except.isErr]
            rcases hsc : splitOnChar ',' y with _ | ⟨a, _ | ⟨b, _ | ⟨c, _ | ⟨d, l4⟩⟩⟩⟩ <;>
              simp [hsc, Except.isErr]
            cases parseFloat? a <;> cases parseFloat? b <;> cases parseFloat? c <;>
              simp [Except.isErr]
          | false =>
            simp [ht, hl, ho, hs, ha, Except.isErr]

lemma parseField_ok_eq (p : Packet) (f : GoStr) (hok : fieldBad f = false) :
    parseField p f = .ok (applyGoodField p f) := by
  unfold fieldBad at hok
  simp only [Bool.or_eq_false_iff, Bool.and_eq_false_iff] at hok
  unfold parseField applyGoodField
  cases ht : timeKey.isPrefixOf f with
  | true => simp [ht]
  | false =>
    cases hl : latKey.isPrefixOf f with
    | true =>
      rcases hok.1.1.1 with hc | hc
      · rw [hl] at hc; cases hc
      · simp only [ht, hl]
        cases hpf : parseFloat? (trimPre latKey f) with
        | none => rw [hpf] at hc; cases hc
        | some v => simp [hpf]
    | false =>
      cases ho : lonKey.isPrefixOf f with
      | true =>
        rcases hok.1.1.2 with hc | hc
        · rw [ho] at hc; cases hc
        · simp only [ht, hl, ho]
          cases hpf : parseFloat? (trimPre lonKey f) with
          | none => rw [hpf] at hc; cases hc
          | some v => simp [hpf]
      | false =>
        cases hs : satKey.isPrefixOf f with
        | true =>
          rcases hok.1.2 with hc | hc
          · rw [hs] at hc; cases hc
          · simp only [ht, hl, ho, hs]
            cases hpf : parseInt? (trimPre satKey f) with
            | none => rw [hpf] at hc; cases hc
            | some v => simp [hpf]
        | false =>
          cases ha : accKey.isPrefixOf f with
          | true =>
            rcases hok.2 with hc | hc
            · rw [ha] at hc; cases hc
            · simp only [ht, hl, ho, hs, ha]
              unfold accelBad at hc
              unfold accelTriple?
              rcases hsp : splitOnChar ':' f with _ | ⟨x, l1⟩
              · simp [hsp] at hc
              · rcases l1 with _ | ⟨y, l2⟩
                · simp [hsp] at hc
                · rcases l2 with _ | ⟨z, l3⟩
                  · simp only [hsp] at hc
                    simp only [hsp]
                    rcases hsc : splitOnChar ',' y with _ | ⟨a, m1⟩
                    · simp [hsc] at hc
                    · rcases m1 with _ | ⟨b, m2⟩
                      · simp [hsc] at hc
                      · rcases m2 with _ | ⟨c, m3⟩
                        · simp [hsc] at hc
                        · rcases m3 with _ | ⟨d, m4⟩
                          · simp only [hsc, Bool.or_eq_false_iff] at hc
                            simp only [hsc]
                            cases hfa : parseFloat? a with
                            | none => rw [hfa] at hc; simp at hc
                            | some va =>
                              cases hfb : parseFloat? b with
                              | none => rw [hfb] at hc; simp at hc
                              | some vb =>
                                cases hfc : parseFloat? c with
                                | none => rw [hfc] at hc; simp at hc
                                | some vc => simp [hfa, hfb, hfc]
                          · simp [hsc] at hc
                  · simp [hsp] at hc
          | false => simp [ht, hl, ho, hs, ha]

lemma processFields_isErr (fs : List GoStr) : ∀ p, (processFields p fs).isErr = fs.any fieldBad := by
  induction fs with
  | nil => intro p; rfl
  | cons f fs ih =>
    intro p
    simp only [processFields, List.any_cons]
    cases hpf : parseField p f with
    | error e =>
      have hb : fieldBad f = true := by rw [← parseField_isErr_eq p f, hpf]; rfl
      simp [hb, Except.isErr]
    | ok q =>
      have hb : fieldBad f = false := by rw [← parseField_isErr_eq p f, hpf]; rfl
      simp [hb, ih q]

lemma processFields_ok_eq (fs : List GoStr) : ∀ p, fs.any fieldBad = false →
    processFields p fs = .ok (fs.foldl applyGoodField p) := by
  induction fs with
  | nil => intro p _; rfl
  | cons f fs ih =>
    intro p h
    simp only [List.any_cons, Bool.or_eq_false_iff] at h
    simp only [processFields, parseField_ok_eq p f h.1, List.foldl_cons]
    exact ih _ h.2

lemma parsePacket_isErr_iff (line : GoStr) :
    (parsePacket line).isErr = true ↔
      trimSpace line = [] ∨ (splitOnChar ';' (trimSpace line)).length < 6 ∨
        ∃ f ∈ (splitOnChar ';' (trimSpace line)).tail, fieldBad f = true := by
  unfold parsePacket
  by_cases h0 : trimSpace line = []
  · simp [h0, Except.isErr]
  · rw [if_neg h0]
    by_cases h6 : (splitOnChar ';' (trimSpace line)).length < 6
    · simp [h6, h0, Except.isErr]
    · rw [if_neg h6]
      rw [processFields_isErr]
      simp [h0, h6, List.any_eq_true]

/-- C1: `ParsePacket` fails exactly when the trimmed line is empty, or it
has fewer than 6 semicolon-delimited fields, or some field after the first
is a recognized numeric field whose payload fails to parse or an
acceleration field without exactly three comma-separated numeric
components behind a single `:` (the condition `fieldBad`); in particular a
line with fewer than 6 fields always fails. -/
theorem C1_decode_error_characterization (line : GoStr) :
    ((parsePacket line).isErr = true ↔
      trimSpace line = [] ∨ (splitOnChar ';' (trimSpace line)).length < 6 ∨
        ∃ f ∈ (splitOnChar ';' (trimSpace line)).tail, fieldBad f = true) ∧
    ((splitOnChar ';' (trimSpace line)).length < 6 → (parsePacket line).isErr = true) :=
  ⟨parsePacket_isErr_iff line,
   fun h6 => (parsePacket_isErr_iff line).mpr (Or.inr (Or.inl h6))⟩

/-- C10: on a line with at least 6 fields, a field after the first that
starts with `Acceleration` but does not split on `:` into exactly two
parts makes the whole line fail, instead of being ignored like an
unrecognized field. -/
theorem C10_malformed_accel_field_fails (line f : GoStr)
    (_h6 : 6 ≤ (splitOnChar ';' (trimSpace line)).length)
    (hmem : f ∈ (splitOnChar ';' (trimSpace line)).tail)
    (hacc : accKey.isPrefixOf f = true)
    (hsplit : (splitOnChar ':' f).length ≠ 2) :
    (parsePacket line).isErr = true := by
  apply (parsePacket_isErr_iff line).mpr
  refine Or.inr (Or.inr ⟨f, hmem, ?_⟩)
  have hab : accelBad f = true := by
    unfold accelBad
    rcases hsp : splitOnChar ':' f with _ | ⟨x, l1⟩
    · simp
    · rcases l1 with _ | ⟨y, l2⟩
      · simp
      · rcases l2 with _ | ⟨z, l3⟩
        · exact absurd (by rw [hsp]; rfl) hsplit
        · simp
  unfold fieldBad
  simp [hacc, hab]

/-- Witness for C10 at the concrete line `a;b;c;d;e;Acceleration-1,2,3`
whose acceleration field uses `-` instead of `:`. -/
theorem C10_malformed_accel_witness :
    (parsePacket "a;b;c;d;e;Acceleration-1,2,3".data).isErr = true :=
  C10_malformed_accel_field_fails "a;b;c;d;e;Acceleration-1,2,3".data
    "Acceleration-1,2,3".data (by decide) (by decide) (by decide) (by decide)

lemma parseField_unrecognized (r : Packet) (g : GoStr) (h : recognizedField g = false) :
    parseField r g = .ok r := by
  unfold recognizedField at h
  simp only [Bool.or_eq_false_iff] at h
  unfold parseField
  simp [h.1.1.1.1, h.1.1.1.2, h.1.1.2, h.1.2, h.2]

lemma accelTriple_of_not_bad (g : GoStr) (h : accelBad g = false) :
    ∃ t, accelTriple? g = some t := by
  unfold accelBad at h
  unfold accelTriple?
  rcases hsp : splitOnChar ':' g with _ | ⟨x, l1⟩
  · simp [hsp] at h
  · rcases l1 with _ | ⟨y, l2⟩
    · simp [hsp] at h
    · rcases l2 with _ | ⟨z, l3⟩
      · simp only [hsp] at h ⊢
        rcases hsc : splitOnChar ',' y with _ | ⟨a, m1⟩
        · simp [hsc] at h
        · rcases m1 with _ | ⟨b, m2⟩
          · simp [hsc] at h
          · rcases m2 with _ | ⟨c, m3⟩
            · simp [hsc] at h
            · rcases m3 with _ | ⟨d, m4⟩
              · simp only [hsc, Bool.or_eq_false_iff] at h
                simp only [hsc]
                cases hfa : parseFloat? a with
                | none => rw [hfa] at h; simp at h
                | some va =>
                  cases hfb : parseFloat? b with
                  | none => rw [hfb] at h; simp at h
                  | some vb =>
                    cases hfc : parseFloat? c with
                    | none => rw [hfc] at h; simp at h
                    | some vc => exact ⟨(va, vb, vc), rfl⟩
              · simp [hsc] at h
      · simp [hsp] at h

lemma foldl_applyGoodField_proj {β : Type} (key : GoStr) (proj : Packet → β)
    (ext : GoStr → Option β)
    (h1 : ∀ (r : Packet) (g : GoStr), fieldBad g = false → key.isPrefixOf g = true →
      ∃ v, ext g = some v ∧ proj (applyGoodField r g) = v)
    (h2 : ∀ (r : Packet) (g : GoStr), key.isPrefixOf g = false →
      proj (applyGoodField r g) = proj r) :
    ∀ (fields : List GoStr) (p : Packet), fields.any fieldBad = false →
      proj (fields.foldl applyGoodField p) =
        ((fields.filter (fun g => key.isPrefixOf g)).getLast?.bind ext).getD (proj p) := by
  intro fields
  induction fields using List.reverseRecOn with
  | nil => intro p _; rfl
  | append_singleton fs f ih =>
    intro p h
    rw [List.any_append] at h
    simp only [Bool.or_eq_false_iff, List.any_cons, List.any_nil] at h
    have hfs : fs.any fieldBad = false := h.1
    have hf : fieldBad f = false := by simpa using h.2
    rw [List.foldl_append, List.foldl_cons, List.foldl_nil, List.filter_append]
    cases hk : key.isPrefixOf f with
    | false =>
      have hfil : List.filter (fun g => key.isPrefixOf g) [f] = [] := by simp [hk]
      rw [hfil, List.append_nil, h2 _ _ hk]
      exact ih p hfs
    | true =>
      have hfil : List.filter (fun g => key.isPrefixOf g) [f] = [f] := by simp [hk]
      rw [hfil, List.getLast?_concat]
      obtain ⟨v, hv, hpv⟩ := h1 (fs.foldl applyGoodField p) f hf hk
      simp [hv, hpv]

/-- C7: fields after the first may arrive in any order; unrecognized
fields are no-ops (decoding still succeeds through them); and for every
recognized key the resulting record holds the value of the LAST occurrence
of that key among the fields (later occurrences overwrite earlier ones),
or the initial value when the key never occurs. -/
theorem C7_unknown_ignored_last_wins (fields : List GoStr) (p q : Packet)
    (h : processFields p fields = .ok q) :
    (∀ (r : Packet) (g : GoStr), recognizedField g = false → parseField r g = .ok r) ∧
    q.Time = ((fields.filter (fun g => timeKey.isPrefixOf g)).getLast?.bind
        (fun g => some (trimPre timeKey g))).getD p.Time ∧
    q.Latitude = ((fields.filter (fun g => latKey.isPrefixOf g)).getLast?.bind
        (fun g => parseFloat? (trimPre latKey g))).getD p.Latitude ∧
    q.Longitude = ((fields.filter (fun g => lonKey.isPrefixOf g)).getLast?.bind
        (fun g => parseFloat? (trimPre lonKey g))).getD p.Longitude ∧
    q.Satellites = ((fields.filter (fun g => satKey.isPrefixOf g)).getLast?.bind
        (fun g => parseInt? (trimPre satKey g))).getD p.Satellites ∧
    q.Acceleration = ((fields.filter (fun g => accKey.isPrefixOf g)).getLast?.bind
        accelTriple?).getD p.Acceleration := by
  have herr : (processFields p fields).isErr = false := by rw [h]; rfl
  rw [processFields_isErr] at herr
  have hq : q = fields.foldl applyGoodField p := by
    have h2 := processFields_ok_eq fields p herr
    rw [h] at h2
    exact Except.ok.inj h2
  subst hq
  refine ⟨parseField_unrecognized, ?_, ?_, ?_, ?_, ?_⟩
  · exact foldl_applyGoodField_proj timeKey (fun r => r.Time)
      (fun g => some (trimPre timeKey g))
      (fun r g _ hk => ⟨trimPre timeKey g, rfl, by unfold applyGoodField; simp [hk]⟩)
      (fun r g hk => by
        unfold applyGoodField
        simp only [hk, Bool.false_eq_true, if_false]
        repeat' split
        all_goals rfl)
      fields p herr
  · exact foldl_applyGoodField_proj latKey (fun r => r.Latitude)
      (fun g => parseFloat? (trimPre latKey g))
      (fun r g hb hk => by
        have ht : timeKey.isPrefixOf g = false := isPre_excl (by decide) (by decide) g hk
        unfold fieldBad at hb
        simp only [Bool.or_eq_false_iff, Bool.and_eq_false_iff] at hb
        rcases hb.1.1.1 with hc | hc
        · rw [hk] at hc; cases hc
        · cases hpf : parseFloat? (trimPre latKey g) with
          | none => rw [hpf] at hc; cases hc
          | some v =>
            refine ⟨v, hpf, ?_⟩
            unfold applyGoodField
            simp [ht, hk, hpf])
      (fun r g hk => by
        unfold applyGoodField
        simp only [hk, Bool.false_eq_true, if_false]
        repeat' split
        all_goals rfl)
      fields p herr
  · exact foldl_applyGoodField_proj lonKey (fun r => r.Longitude)
      (fun g => parseFloat? (trimPre lonKey g))
      (fun r g hb hk => by
        have ht : timeKey.isPrefixOf g = false := isPre_excl (by decide) (by decide) g hk
        have hl : latKey.isPrefixOf g = false := isPre_excl (by decide) (by decide) g hk
        unfold fieldBad at hb
        simp only [Bool.or_eq_false_iff, Bool.and_eq_false_iff] at hb
        rcases hb.1.1.2 with hc | hc
        · rw [hk] at hc; cases hc
        · cases hpf : parseFloat? (trimPre lonKey g) with
          | none => rw [hpf] at hc; cases hc
          | some v =>
            refine ⟨v, hpf, ?_⟩
            unfold applyGoodField
            simp [ht, hl, hk, hpf])
      (fun r g hk => by
        unfold applyGoodField
        simp only [hk, Bool.false_eq_true, if_false]
        repeat' split
        all_goals rfl)
      fields p herr
  · exact foldl_applyGoodField_proj satKey (fun r => r.Satellites)
      (fun g => parseInt? (trimPre satKey g))
      (fun r g hb hk => by
        have ht : timeKey.isPrefixOf g = false := isPre_excl (by decide) (by decide) g hk
        have hl : latKey.isPrefixOf g = false := isPre_excl (by decide) (by decide) g hk
        have ho : lonKey.isPrefixOf g = false := isPre_excl (by decide) (by decide) g hk
        unfold fieldBad at hb
        simp only [Bool.or_eq_false_iff, Bool.and_eq_false_iff] at hb
        rcases hb.1.2 with hc | hc
        · rw [hk] at hc; cases hc
        · cases hpf : parseInt? (trimPre satKey g) with
          | none => rw [hpf] at hc; cases hc
          | some v =>
            refine ⟨v, hpf, ?_⟩
            unfold applyGoodField
            simp [ht, hl, ho, hk, hpf])
      (fun r g hk => by
        unfold applyGoodField
        simp only [hk, Bool.false_eq_true, if_false]
        repeat' split
        all_goals rfl)
      fields p herr
  · exact foldl_applyGoodField_proj accKey (fun r => r.Acceleration) accelTriple?
      (fun r g hb hk => by
        have ht : timeKey.isPrefixOf g = false := isPre_excl (by decide) (by decide) g hk
        have hl : latKey.isPrefixOf g = false := isPre_excl (by decide) (by decide) g hk
        have ho : lonKey.isPrefixOf g = false := isPre_excl (by decide) (by decide) g hk
        have hs : satKey.isPrefixOf g = false := isPre_excl (by decide) (by decide) g hk
        unfold fieldBad at hb
        simp only [Bool.or_eq_false_iff, Bool.and_eq_false_iff] at hb
        rcases hb.2 with hc | hc
        · rw [hk] at hc; cases hc
        · obtain ⟨t, htr⟩ := accelTriple_of_not_bad g hc
          refine ⟨t, htr, ?_⟩
          unfold applyGoodField
          simp [ht, hl, ho, hs, hk, htr])
      (fun r g hk => by
        unfold applyGoodField
        simp only [hk, Bool.false_eq_true, if_false]
        repeat' split
        all_goals rfl)
      fields p herr

/-- Witness for C7 at the concrete fields
`[Time-a, Bogus, Time-b]` processed from the zero record: decoding
succeeds, the unknown field is ignored and the second `Time` wins. -/
theorem C7_unknown_ignored_last_wins_witness :
    (∀ (r : Packet) (g : GoStr), recognizedField g = false → parseField r g = .ok r) ∧
    (Packet.mk ['b'] 0 0 0 (0, 0, 0)).Time =
      ((["Time-a".data, "Bogus".data, "Time-b".data].filter
          (fun g => timeKey.isPrefixOf g)).getLast?.bind
        (fun g => some (trimPre timeKey g))).getD Packet.zero.Time ∧
    (Packet.mk ['b'] 0 0 0 (0, 0, 0)).Latitude =
      ((["Time-a".data, "Bogus".data, "Time-b".data].filter
          (fun g => latKey.isPrefixOf g)).getLast?.bind
        (fun g => parseFloat? (trimPre latKey g))).getD Packet.zero.Latitude ∧
    (Packet.mk ['b'] 0 0 0 (0, 0, 0)).Longitude =
      ((["Time-a".data, "Bogus".data, "Time-b".data].filter
          (fun g => lonKey.isPrefixOf g)).getLast?.bind
        (fun g => parseFloat? (trimPre lonKey g))).getD Packet.zero.Longitude ∧
    (Packet.mk ['b'] 0 0 0 (0, 0, 0)).Satellites =
      ((["Time-a".data, "Bogus".data, "Time-b".data].filter
          (fun g => satKey.isPrefixOf g)).getLast?.bind
        (fun g => parseInt? (trimPre satKey g))).getD Packet.zero.Satellites ∧
    (Packet.mk ['b'] 0 0 0 (0, 0, 0)).Acceleration =
      ((["Time-a".data, "Bogus".data, "Time-b".data].filter
          (fun g => accKey.isPrefixOf g)).getLast?.bind
        accelTriple?).getD Packet.zero.Acceleration :=
  C7_unknown_ignored_last_wins ["Time-a".data, "Bogus".data, "Time-b".data]
    Packet.zero (Packet.mk ['b'] 0 0 0 (0, 0, 0)) rfl
